import Mathlib

/-!
Verification of the CountryCrab stochastic local-search engine
(src/countrycrab/heuristics.py and src/countrycrab/solver.py) against its
natural-language specification.

Conventions of the shallow embedding:
* machine float32 values are modelled as the elements of an arbitrary
  linearly ordered commutative ring `K` (the loops use only ring operations
  and comparisons, so this covers the real numbers); concrete witnesses
  instantiate `K` with the integers; score and contribution matrices are
  lists of rows;
* binary assignments are lists of `Bool`, ternary TCAM patterns are lists of
  `Option Bool` (`none` is the wildcard);
* every random draw of the Python code (noise samples, the multi-core random
  reduction pick, the Bernoulli draws and rank indices of the sequential
  variants) is supplied as an explicit input stream, the standard shallow
  embedding of stochastic code;
* a Python exception becomes `Except.error`;
* the trajectory matrix, whose unreached columns hold NaN in the source, is
  modelled as the list of the columns actually computed (one per executed
  iteration), reported together with the iteration counter `n_iters`.
-/

set_option autoImplicit false

deriving instance DecidableEq for Except

namespace CountryCrab

universe u v w

variable {K : Type} [LinearOrderedCommRing K]

/-! ### Generic list helpers used by the embedding -/

/-- Map a function that also receives the element's index, the index of the
head being `i`.  Used to embed index-dependent vectorized operations. -/
def mapWithIdx {α : Type u} {β : Type v} (f : Nat → α → β) : Nat → List α → List β
  | _, [] => []
  | i, a :: l => f i a :: mapWithIdx f (i + 1) l

/-- First index of the maximum of a list together with that maximum, the
embedding of `cp.argmax` over one row (ties resolved towards the smallest
index, as numpy and cupy do). -/
def argmaxP : List K → Nat × K
  | [] => (0, 0)
  | [x] => (0, x)
  | x :: y :: xs =>
    let p := argmaxP (y :: xs)
    if x < p.2 then (p.1 + 1, p.2) else (0, x)

/-- First index of the minimum of a list together with that minimum, the
embedding of `cp.argmin` over one row. -/
def argminP : List K → Nat × K
  | [] => (0, 0)
  | [x] => (0, x)
  | x :: y :: xs =>
    let p := argminP (y :: xs)
    if p.2 < x then (p.1 + 1, p.2) else (0, x)

/-! ### The ternary match and flip primitives -/

/-- Modelled from the spec: one row of the ternary match primitive
`campie.tcam_match` (external campie library, its code is not under src/).
Per spec section 4.1 a constraint row is triggered iff every non-wildcard
position of its pattern equals the corresponding assignment bit; wildcards
are `none`. -/
def rowMatch (input : List Bool) (pat : List (Option Bool)) : Bool :=
  (List.zip pat input).all fun pr =>
    match pr.1 with
    | none => true
    | some b => b == pr.2

/-- Modelled from the spec: `campie.tcam_match(inputs, tcam)`, the W x C
triggered-constraint matrix (spec section 4.1). -/
def tcamMatch (inputs : List (List Bool)) (tcam : List (List (Option Bool))) :
    List (List Bool) :=
  inputs.map fun inp => tcam.map fun pat => rowMatch inp pat

/-- Flip one position of a walker's assignment row. -/
def flipAt : List Bool → Nat → List Bool
  | [], _ => []
  | b :: r, 0 => (!b) :: r
  | b :: r, i + 1 => b :: flipAt r i

/-- Modelled from the spec: `campie.flip_indices(inputs, update)` (external
campie library, its code is not under src/).  Flips, for each walker row, the
variable whose index is given; per the spec's edge-case policy (section 4.4)
the sentinel `-1` is special-cased to skip the flip. -/
def flipAll (inputs : List (List Bool)) (update : List ℤ) : List (List Bool) :=
  List.zipWith (fun row u => if u < 0 then row else flipAt row u.toNat)
    inputs update

/-- Number of positions at which two assignment rows differ. -/
def numDiff (a b : List Bool) : Nat :=
  (List.zipWith (fun x y => decide (x ≠ y)) a b).count true

/-! ### walksat_m (heuristics.py lines 28-117) -/

/-- Parameters of `walksat_m` that are fixed for one invocation:
the global constraint pair `(tcam, ram)`, the per-core partitioned pairs
`(tcam_cores, ram_cores)`, `n_cores`, `variables = tcam.shape[1]`,
`max_flips` and the noise-distribution name.  The noise standard deviation
multiplies the random samples, which the embedding supplies already scaled
as an explicit stream, so it does not appear separately. -/
structure MParams (K : Type) where
  tcam : List (List (Option Bool))
  ram : List (List K)
  tcamCores : List (List (List (Option Bool)))
  ramCores : List (List (List K))
  nCores : Nat
  nvars : Nat
  maxFlips : Nat
  noiseDist : String

/-- One entry of `violated_clauses @ ram` (heuristics.py line 66): the make
value of variable `v` for a walker whose triggered-constraint row is `row`. -/
def dotCol (row : List Bool) (ram : List (List K)) (v : Nat) : K :=
  ((List.zip row ram).map fun pr => if pr.1 then pr.2.getD v 0 else 0).sum

/-- One walker's row of make values, `(violated_clauses @ ram)[w]`. -/
def makeRow (row : List Bool) (ram : List (List K)) (nvars : Nat) : List K :=
  (List.range nvars).map (dotCol row ram)

/-- The make-value matrix `make_values = violated_clauses @ ram`
(heuristics.py line 66). -/
def makeValues (mtchs : List (List Bool)) (ram : List (List K))
    (nvars : Nat) : List (List K) :=
  mtchs.map fun row => makeRow row ram nvars

/-- `violated_constr` of one walker: `cp.sum(make_values > 0)` over the
variable axis (heuristics.py line 68); the per-walker count of unsatisfied
variables recorded in the trajectory. -/
def violatedConstrRow (mv : List K) : Nat :=
  mv.countP fun q => decide (0 < q)

/-- The global make-value matrix of `walksat_m` for the current inputs. -/
def mMake (p : MParams K) (inputs : List (List Bool)) : List (List K) :=
  makeValues (tcamMatch inputs p.tcam) p.ram p.nvars

/-- The global `violated_constr` vector of `walksat_m` for the current
inputs (heuristics.py line 68). -/
def mVc (p : MParams K) (inputs : List (List Bool)) : List Nat :=
  (mMake p inputs).map violatedConstrRow

/-- The noise-distribution names accepted by the elif chain of
heuristics.py lines 89-99. -/
def knownNoiseDist (d : String) : Bool :=
  d = "normal" || d = "uniform" || d = "intrinsic"

/-- Add, entrywise, one walker row of drawn noise samples to one walker row
of make values (`make_values += ...`, heuristics.py lines 89-97; the samples,
already scaled by the standard deviation and, for the intrinsic profile,
by the square root of the score, arrive as the explicit stream `f`). -/
def addEta (row : List K) (f : Nat → K) : List K :=
  mapWithIdx (fun v q => q + f v) 0 row

/-- Per-core flip selection: `update = cp.argmax(make_values, axis=2)`
followed by `update[cp.where(violated_constr == 0)] = -1`
(heuristics.py lines 102-103), for one core. -/
def selectCore (noisy : List (List K)) (vc : List Nat) : List ℤ :=
  List.zipWith
    (fun row c => if c = 0 then (-1 : ℤ) else ((argmaxP row).1 : ℤ))
    noisy vc

/-- The multi-core reduction (heuristics.py lines 108-112): transpose the
cores x walkers update matrix and keep, per walker, the proposal of a
uniformly drawn core; `pick` is the stream of raw draws, reduced modulo
`update.shape[1]` to embed `cp.random.randint(0, update.shape[1])`. -/
def reducePick (upd : List (List ℤ)) (pick : Nat → Nat) (w : Nat) : List ℤ :=
  (List.range w).map fun i => (upd.getD (pick i % upd.length) []).getD i (-1)

/-- The per-core score matrices of one `walksat_m` iteration: with one core
the global matrix is reused wrapped in a single core dimension
(heuristics.py lines 75-82), otherwise each core's matches are recomputed on
its own partition (lines 83-87). -/
def mCoreScores (p : MParams K) (inputs : List (List Bool))
    (mv : List (List K)) : List (List (List K)) :=
  if p.nCores = 1 then [mv]
  else
    List.zipWith (fun tc rc => makeValues (tcamMatch inputs tc) rc p.nvars)
      p.tcamCores p.ramCores

/-- The flip-selection phase of one `walksat_m` iteration (heuristics.py
lines 75-112): per-core scores, noise injection, per-core argmax with the
`-1` sentinel for locally satisfied walkers, and either the single-core
unwrap `update[0]` or the random multi-core reduction.  `eta` is the stream
of drawn noise samples indexed by core, walker and variable; `pick` the
stream of reduction draws indexed by walker. -/
def mSelect (p : MParams K) (eta : Nat → Nat → Nat → K) (pick : Nat → Nat)
    (inputs : List (List Bool)) : List ℤ :=
  let mvC := mCoreScores p inputs (mMake p inputs)
  let vcC := mvC.map fun rows => rows.map violatedConstrRow
  let noisyC :=
    mapWithIdx (fun c rows => mapWithIdx (fun w row => addEta row (eta c w)) 0 rows)
      0 mvC
  let updC := List.zipWith selectCore noisyC vcC
  if p.nCores = 1 then updC.headD [] else reducePick updC pick inputs.length

/-- One iteration of the `walksat_m` loop body (heuristics.py lines 61-115):
compute the trajectory column, break on the early-stopping check, then (in
source order) recompute per-core scores, inject noise — raising the unknown
noise-distribution ValueError there — select the flips and update the
assignment batch.  Returns the trajectory column, the early-stop flag and
the updated batch. -/
def mIter (p : MParams K) (eta : Nat → Nat → Nat → K) (pick : Nat → Nat)
    (inputs : List (List Bool)) :
    Except String (List Nat × Bool × List (List Bool)) :=
  let vc := mVc p inputs
  if vc.sum = 0 then Except.ok (vc, true, inputs)
  else if knownNoiseDist p.noiseDist then
    Except.ok (vc, false, flipAll inputs (mSelect p eta pick inputs))
  else Except.error ("Unknown noise distribution: " ++ p.noiseDist)

/-- The `walksat_m` search loop (heuristics.py lines 61-115) with explicit
fuel: `it` is the iteration index, `traj` the columns recorded so far and
`n` the iteration counter `n_iters`, incremented once per iteration
attempted, including the final one that detects satisfaction. -/
def mRun (p : MParams K) (eta : Nat → Nat → Nat → Nat → K)
    (pick : Nat → Nat → Nat) :
    Nat → Nat → List (List Bool) → List (List Nat) → Nat →
    Except String (List (List Nat) × Nat × List (List Bool))
  | 0, _, inputs, traj, n => Except.ok (traj, n, inputs)
  | fuel + 1, it, inputs, traj, n =>
    match mIter p (eta it) (pick it) inputs with
    | Except.error e => Except.error e
    | Except.ok (col, stop, inputs') =>
      if stop then Except.ok (traj ++ [col], n + 1, inputs')
      else mRun p eta pick fuel (it + 1) inputs' (traj ++ [col]) (n + 1)

/-- `walksat_m` applied to an initial assignment batch: the loop runs over
`range(max_flips)` (heuristics.py line 61) and returns the triple
`(violated_constr_mat, n_iters, inputs)` (line 117). -/
def walksat_m_run (p : MParams K) (eta : Nat → Nat → Nat → Nat → K)
    (pick : Nat → Nat → Nat) (inputs0 : List (List Bool)) :
    Except String (List (List Nat) × Nat × List (List Bool)) :=
  mRun p eta pick p.maxFlips 0 inputs0 [] 0

/-- The early-stopping condition `cp.sum(violated_constr_mat[:, it]) == 0`
triggered at some recorded iteration: some recorded trajectory column sums
to zero.  The loop breaks at the first such column, so this holds iff the
last recorded column sums to zero. -/
def stoppedEarly (traj : List (List Nat)) : Bool :=
  traj.any fun col => col.sum == 0

/-! ### The literal/clause encoding shared by walksat_g, walksat_SKC,
walksat_Gseq, walksat_SKCseq and walksat_B2seq
(heuristics.py lines 144-150, 166-189 and their copies) -/

/-- Indicator of a boolean as a float. -/
def boolQ (b : Bool) : K := if b then 1 else 0

/-- The literal-assignment row of one walker (heuristics.py lines 166-168):
literal `2k` carries the value of variable `k` and literal `2k+1` its
complement. -/
def litRow (x : List Bool) : List K :=
  (List.range (2 * x.length)).map fun l =>
    if l % 2 = 0 then boolQ (x.getD (l / 2) false)
    else 1 - boolQ (x.getD (l / 2) false)

/-- Entry `j` of a vector-matrix product `v @ m` over matrices stored as a
list of rows. -/
def dotRow (v : List K) (m : List (List K)) (j : Nat) : K :=
  ((List.zip v m).map fun pr => pr.1 * pr.2.getD j 0).sum

/-- The per-clause satisfied-literal counts `f_val = lit_inputs @ ramf` of
one walker (heuristics.py line 169). -/
def fValRow (x : List Bool) (ramf : List (List K)) (nclauses : Nat) :
    List K :=
  (List.range nclauses).map (dotRow (litRow x) ramf)

/-- `s_val`, the indicator of unsatisfied clauses (`f_val == 0`,
heuristics.py lines 170-174). -/
def sValRow (x : List Bool) (ramf : List (List K)) (nclauses : Nat) :
    List K :=
  (fValRow x ramf nclauses).map fun q => if q = 0 then 1 else 0

/-- `z_val`, the indicator of clauses satisfied by exactly one literal
(`f_val == 1`, heuristics.py lines 171-176). -/
def zValRow (x : List Bool) (ramf : List (List K)) (nclauses : Nat) :
    List K :=
  (fValRow x ramf nclauses).map fun q => if q = 1 then 1 else 0

/-- The index of the currently-false literal of variable `k`
(`lit_zero_indices` reshaped, heuristics.py lines 180-184). -/
def falseLit (x : List Bool) (k : Nat) : Nat :=
  if x.getD k false then 2 * k + 1 else 2 * k

/-- The index of the currently-true literal of variable `k`
(`lit_one_indices` reshaped, heuristics.py lines 179-185). -/
def trueLit (x : List Bool) (k : Nat) : Nat :=
  if x.getD k false then 2 * k else 2 * k + 1

/-- One walker's make values `mv_arr` (heuristics.py line 184): per
variable, the entry of `a = s_val @ ramb` at the variable's false literal. -/
def mvRow (x : List Bool) (ramf ramb : List (List K))
    (nvars nclauses : Nat) : List K :=
  (List.range nvars).map fun k =>
    dotRow (sValRow x ramf nclauses) ramb (falseLit x k)

/-- One walker's break values `bv_arr` (heuristics.py line 185): per
variable, the entry of `b = z_val @ ramb` at the variable's true literal. -/
def bvRow (x : List Bool) (ramf ramb : List (List K))
    (nvars nclauses : Nat) : List K :=
  (List.range nvars).map fun k =>
    dotRow (zValRow x ramf nclauses) ramb (trueLit x k)

/-! ### walksat_g (heuristics.py lines 120-218) -/

/-- Parameters of `walksat_g` fixed for one invocation: the forward and
backward contribution matrices, `variables = ramf.shape[0] / 2`,
`clauses = ramf.shape[1]`, `n_cores` and `max_flips`.  walksat_g never
consults the noise-distribution name; its noise step always adds the
(scaled) Gaussian samples, supplied here as the explicit stream. -/
structure GParams (K : Type) where
  ramf : List (List K)
  ramb : List (List K)
  nvars : Nat
  nclauses : Nat
  nCores : Nat
  maxFlips : Nat

/-- The mask applied to single-variable scores in walksat_g:
`y[mv_arr < 1] = -100` (heuristics.py line 197): `tmp` masking row. -/
def maskTo (y : List K) (m : List Bool) (c : K) : List K :=
  List.zipWith (fun q b => if b then c else q) y m

/-- `mv_arr < 1` of one walker row. -/
def tmp1Row (mv : List K) : List Bool :=
  mv.map fun q => decide (q < 1)

/-- The make-value matrix `mv_arr` of walksat_g for the current batch
(heuristics.py line 184). -/
def gMv (p : GParams K) (x : List (List Bool)) : List (List K) :=
  x.map fun row => mvRow row p.ramf p.ramb p.nvars p.nclauses

/-- The break-value matrix `bv_arr` of walksat_g for the current batch
(heuristics.py line 185). -/
def gBv (p : GParams K) (x : List (List Bool)) : List (List K) :=
  x.map fun row => bvRow row p.ramf p.ramb p.nvars p.nclauses

/-- The `violated_constr` vector of walksat_g,
`cp.sum(mv_arr > 0, axis=1)` (heuristics.py line 188). -/
def gVc (p : GParams K) (x : List (List Bool)) : List Nat :=
  (gMv p x).map violatedConstrRow

/-- The flip-selection phase of one walksat_g iteration (heuristics.py lines
195-215): add the Gaussian noise samples to the gain `g_arr`, mask variables
with `mv_arr < 1` to `-100`, take per-walker argmax with the `-1` sentinel
from the wrapped single-core array, and unwrap (or, for `n_cores > 1`,
reduce over the wrapped one-core update). -/
def gSelect (p : GParams K) (eta : Nat → Nat → K) (pick : Nat → Nat)
    (x : List (List Bool)) : List ℤ :=
  let g := List.zipWith (List.zipWith fun a b => a - b) (gMv p x) (gBv p x)
  let ynoisy := mapWithIdx (fun w grow => addEta grow (eta w)) 0 g
  let yMat :=
    List.zipWith (fun yrow mvrow => maskTo yrow (tmp1Row mvrow) (-100))
      ynoisy (gMv p x)
  let updC := [selectCore yMat (gVc p x)]
  if p.nCores = 1 then updC.headD [] else reducePick updC pick x.length

/-- One iteration of the `walksat_g` loop body (heuristics.py lines
162-216): compute make/break/gain values, record the trajectory column,
break on the early-stopping check, then select and flip.  `eta` is the
stream of drawn noise samples indexed by walker and variable; `pick` the
stream of reduction draws. -/
def gIter (p : GParams K) (eta : Nat → Nat → K) (pick : Nat → Nat)
    (x : List (List Bool)) : List Nat × Bool × List (List Bool) :=
  let vc := gVc p x
  if vc.sum = 0 then (vc, true, x)
  else (vc, false, flipAll x (gSelect p eta pick x))

/-- The `walksat_g` search loop with explicit fuel; same bookkeeping as
`mRun` but with no failure path, since walksat_g contains no
noise-distribution check. -/
def gRun (p : GParams K) (eta : Nat → Nat → Nat → K)
    (pick : Nat → Nat → Nat) :
    Nat → Nat → List (List Bool) → List (List Nat) → Nat →
    List (List Nat) × Nat × List (List Bool)
  | 0, _, x, traj, n => (traj, n, x)
  | fuel + 1, it, x, traj, n =>
    match gIter p (eta it) (pick it) x with
    | (col, stop, x') =>
      if stop then (traj ++ [col], n + 1, x')
      else gRun p eta pick fuel (it + 1) x' (traj ++ [col]) (n + 1)

/-- `walksat_g` applied to an initial assignment batch: the loop runs over
`range(max_flips - 1)` (heuristics.py line 162) and returns the triple
`(violated_constr_mat, n_iters, var_inputs)` (line 218). -/
def walksat_g_run (p : GParams K) (eta : Nat → Nat → Nat → K)
    (pick : Nat → Nat → Nat) (x0 : List (List Bool)) :
    List (List Nat) × Nat × List (List Bool) :=
  gRun p eta pick (p.maxFlips - 1) 0 x0 [] 0

/-! ### The freebie-aware masking of walksat_SKC and walksat_SKCseq
(heuristics.py lines 326-342 and 638-644) and the break-minimizing
selection of walksat_B2seq (lines 775 and 804-840) -/

/-- `bv_arr == 0` of one walker row (`tmp2`). -/
def tmp2Row (bv : List K) : List Bool :=
  bv.map fun q => decide (q = 0)

/-- The freebie indicator `~tmp1 & tmp2` of one walker row: variables whose
make value is at least 1 and whose break value is 0. -/
def freebieRow (mv bv : List K) : List Bool :=
  List.zipWith (fun m b => decide (1 ≤ m) && decide (b = 0)) mv bv

/-- `tmp3` for one walker: some freebie exists
(`(~tmp1 & tmp2).any(1)`, heuristics.py lines 329 and 640). -/
def hasFreebie (mv bv : List K) : Bool :=
  (freebieRow mv bv).any id

/-- The freebie-aware mask `tmp5` of one walker row (heuristics.py lines
326-331 and 638-642): `(tmp4 & (tmp1 | ~tmp2)) | (~tmp4 & tmp1)` with
`tmp4` the broadcast of `tmp3` over the variable axis. -/
def skcMaskRow (mv bv : List K) : List Bool :=
  let t3 := hasFreebie mv bv
  List.zipWith (fun t1 t2 => (t3 && (t1 || !t2)) || (!t3 && t1))
    (tmp1Row mv) (tmp2Row bv)

/-- The walksat_SKC per-walker selection (heuristics.py lines 326-352):
noise is added to the gain `g_arr`, the freebie-aware mask sets masked
entries to `-1000`, then argmax with the `-1` sentinel for satisfied
walkers. -/
def skcSelectRow (mv bv : List K) (eta : Nat → K) : ℤ :=
  let g := List.zipWith (fun a b => a - b) mv bv
  let y := maskTo (addEta g eta) (skcMaskRow mv bv) (-1000)
  if violatedConstrRow mv = 0 then -1 else ((argmaxP y).1 : ℤ)

/-- The walksat_SKCseq per-walker greedy selection `update1`
(heuristics.py lines 638-669): same as walksat_SKC but with no noise term
(line 634 is commented out). -/
def skcseqSelectRow (mv bv : List K) : ℤ :=
  let g := List.zipWith (fun a b => a - b) mv bv
  let y := maskTo g (skcMaskRow mv bv) (-1000)
  if violatedConstrRow mv = 0 then -1 else ((argmaxP y).1 : ℤ)

/-- Insertion into a descending-sorted list of integers. -/
def insDesc (a : ℤ) : List ℤ → List ℤ
  | [] => [a]
  | b :: l => if b < a then a :: b :: l else b :: insDesc a l

/-- Descending insertion sort, embedding
`-cp.sort(-all_variable_indices)` (heuristics.py lines 649-650, 815-816). -/
def sortDesc : List ℤ → List ℤ
  | [] => []
  | a :: l => insDesc a (sortDesc l)

/-- The per-walker random-candidate choice `update2` of the sequential
variants (heuristics.py lines 646-659 and 812-825): variable indices with
masked positions replaced by `-1`, sorted descending, indexed by a random
rank drawn in `[0, count)` where `count` is the number of unmasked
variables (clamped to at least 1); the raw rank draw arrives as `rank` and
is reduced modulo the clamped count to embed `np.random.randint`. -/
def seqRandomCandidate (mask : List Bool) (nvars : Nat) (rank : Nat) : ℤ :=
  let idxs : List ℤ :=
    (List.range nvars).map fun v => if mask.getD v false then -1 else (v : ℤ)
  let sorted := sortDesc idxs
  let cnt := (mask.map fun b => if b then (0 : Nat) else 1).sum
  let cnt' := if cnt = 0 then 1 else cnt
  sorted.getD (rank % cnt') (-1)

/-- The walksat_B2seq per-walker greedy selection `update1` (heuristics.py
lines 775, 810 and 828-835): the score is the break value `bv_arr`
directly, the freebie-aware mask sets masked entries to `1000`, selection
is argmin, and satisfied walkers get the `-1` sentinel. -/
def b2SelectRow (mv bv : List K) : ℤ :=
  let y := maskTo bv (skcMaskRow mv bv) 1000
  if violatedConstrRow mv = 0 then -1 else ((argminP y).1 : ℤ)

/-- The walksat_B2seq per-walker final update (heuristics.py lines
837-840): the random-candidate fallback `update1[ind3] = update2[ind3]`
replaces the greedy choice only when the Bernoulli draw fires
(`ind1 = uniform > noise`, supplied as `bern`), the greedy choice is not the
sentinel, and — specific to B2seq — the walker has no freebie (`~tmp3`). -/
def b2FinalRow (mv bv : List K) (bern : Bool) (upd2 : ℤ) : ℤ :=
  let u1 := b2SelectRow mv bv
  let i3 := bern && !(decide (u1 = -1)) && !(hasFreebie mv bv)
  if i3 then upd2 else u1

/-! ### The solve orchestration (solver.py lines 74-126) -/

/-- Tag for the dispatched heuristic functions. -/
inductive Heuristic where
  | walksatM
deriving DecidableEq

/-- The dispatch table `heuristics_dict` (solver.py lines 77-79): its only
key is the hyphenated name "walksat-m". -/
def heuristics_dict : List (String × Heuristic) :=
  [("walksat-m", Heuristic.walksatM)]

/-- `config.get(key, default)` over a configuration dictionary modelled as
an association list. -/
def configGet (config : List (String × String)) (key dflt : String) :
    String :=
  ((config.find? fun kv => kv.1 = key).map Prod.snd).getD dflt

/-- The heuristic dispatch of `solve` (solver.py lines 74-84): read the
"heuristic" key with default "walksat_m", look it up in `heuristics_dict`,
and raise `Unknown heuristic` when the lookup misses. -/
def solveDispatch (config : List (String × String)) :
    Except String Heuristic :=
  let name := configGet config "heuristic" "walksat_m"
  match (heuristics_dict.find? fun kv => kv.1 = name).map Prod.snd with
  | none => Except.error ("Unknown heuristic: " ++ name)
  | some h => Except.ok h

/-- A component of the Python tuple returned by a heuristic. -/
inductive HVal where
  | traj : List (List Nat) → HVal
  | iters : Nat → HVal
  | batch : List (List Bool) → HVal
deriving DecidableEq

/-- The Python tuple returned by walksat_m (heuristics.py line 117):
`(violated_constr_mat, n_iters, inputs)`, as the sequence Python sees when
unpacking it. -/
def mReturnTuple (r : List (List Nat) × Nat × List (List Bool)) :
    List HVal :=
  [HVal.traj r.1, HVal.iters r.2.1, HVal.batch r.2.2]

/-- The two-target unpacking
`violated_constr_mat, n_iters = heuristic_function(data)`
(solver.py line 99): a Python unpack into two names succeeds only on a
sequence of exactly two values and otherwise raises a ValueError. -/
def unpackPair (l : List HVal) : Except String (HVal × HVal) :=
  match l with
  | [a, b] => Except.ok (a, b)
  | _ => Except.error "ValueError: unpacking mismatch"

/-- `iteration_vector = np.arange(1, n_iters + 1)` (solver.py line 109). -/
def iterationVector (nIters : Nat) : List Nat :=
  (List.range nIters).map fun i => i + 1

/-- Modelled from the spec: `vector_its` lives in the excluded "analyze"
collaborator (`countrycrab.analyze`, not under src/).  Per spec section 6 it
maps the iteration index vector and the per-iteration success-probability
vector to the iterations-to-solution vector, one entry per iteration index;
only this length behaviour is needed here, so the entry values are produced
by an abstract entry function `f`. -/
def vector_its (iterVec : List Nat) (pvt : List K) (f : Nat → K → K) :
    List K :=
  List.zipWith f iterVec pvt

/-! ### Concrete instances used by counterexamples and witnesses -/

/-- The all-zero noise stream for walksat_m iterations. -/
def etaZero3 : Nat → Nat → Nat → ℤ := fun _ _ _ => 0

/-- The all-zero noise stream for whole walksat_m runs. -/
def etaZero4 : Nat → Nat → Nat → Nat → ℤ := fun _ _ _ _ => 0

/-- The all-zero noise stream for walksat_g runs. -/
def etaZeroG : Nat → Nat → Nat → ℤ := fun _ _ _ => 0

/-- A reduction-pick stream that always draws core 1. -/
def pickOne1 : Nat → Nat := fun _ => 1

/-- A reduction-pick stream that always draws core 0. -/
def pickZero1 : Nat → Nat := fun _ => 0

/-- The all-zero reduction-pick stream for whole runs. -/
def pickZero2 : Nat → Nat → Nat := fun _ _ => 0

/-- A two-core walksat_m instance over two variables: the global constraint
set is violated by the assignment (1, 1) only through its first clause,
which lives on core 0; core 1's partition is satisfied by that assignment. -/
def mpTwoCores : MParams ℤ :=
  { tcam := [[some true, none], [some false, some false]]
    ram := [[1, 0], [1, 0]]
    tcamCores := [[[some true, none]], [[some false, some false]]]
    ramCores := [[[1, 0]], [[1, 0]]]
    nCores := 2
    nvars := 2
    maxFlips := 5
    noiseDist := "normal" }



/-- A satisfiable single-core walksat_m instance over one variable with a
one-flip budget; the batch `[[false]]` satisfies it. -/
def mpSat : MParams ℤ :=
  { tcam := [[some true]]
    ram := [[1]]
    tcamCores := [[[some true]]]
    ramCores := [[[1]]]
    nCores := 1
    nvars := 1
    maxFlips := 1
    noiseDist := "normal" }

/-- The same single-core walksat_m instance with an unknown
noise-distribution name and a larger budget. -/
def mpBogus : MParams ℤ :=
  { tcam := [[some true]]
    ram := [[1]]
    tcamCores := [[[some true]]]
    ramCores := [[[1]]]
    nCores := 1
    nvars := 1
    maxFlips := 3
    noiseDist := "bogus" }

/-- A walksat_g instance over one variable with the two contradictory unit
clauses (x) and (not x): literal 0 is x, literal 1 is not x, clause 0
contains literal 0, clause 1 contains literal 1.  No assignment satisfies
it. -/
def gpContra : GParams ℤ :=
  { ramf := [[1, 0], [0, 1]]
    ramb := [[1, 0], [0, 1]]
    nvars := 1
    nclauses := 2
    nCores := 1
    maxFlips := 2 }

/-! ### Helper lemmas about the list operations of the embedding -/

theorem length_mapWithIdx {α : Type u} {β : Type v} (f : Nat → α → β) :
    ∀ (i : Nat) (l : List α), (mapWithIdx f i l).length = l.length
  | _, [] => rfl
  | i, _ :: l => by simp [mapWithIdx, length_mapWithIdx f (i + 1) l]

theorem getElem?_mapWithIdx {α : Type u} {β : Type v} (f : Nat → α → β) :
    ∀ (i : Nat) (l : List α) (v : Nat),
      (mapWithIdx f i l)[v]? = (l[v]?).map (f (i + v))
  | _, [], v => by simp [mapWithIdx]
  | i, a :: l, 0 => by simp [mapWithIdx]
  | i, a :: l, v + 1 => by
      simp [mapWithIdx, getElem?_mapWithIdx f (i + 1) l v, Nat.add_assoc,
        Nat.add_comm 1 v]

theorem getElem?_zipWith' {α : Type u} {β : Type v} {γ : Type w}
    (f : α → β → γ) :
    ∀ (as : List α) (bs : List β) (v : Nat),
      (List.zipWith f as bs)[v]? =
        match as[v]?, bs[v]? with
        | some a, some b => some (f a b)
        | _, _ => none
  | [], _, _ => by simp
  | _ :: _, [], _ => by simp
  | a :: as, b :: bs, 0 => by simp
  | a :: as, b :: bs, v + 1 => by
      simpa using getElem?_zipWith' f as bs v

theorem getD_eq_getElem?_getD' {α : Type u} (l : List α) (v : Nat) (d : α) :
    l.getD v d = (l[v]?).getD d := by
  rw [List.getD_eq_getElem?_getD]

theorem getD_mapWithIdx {α : Type u} {β : Type v} (f : Nat → α → β) (i : Nat)
    (l : List α) (v : Nat) (d : β) (da : α) (h : v < l.length) :
    (mapWithIdx f i l).getD v d = f (i + v) (l.getD v da) := by
  rw [getD_eq_getElem?_getD', getD_eq_getElem?_getD',
    getElem?_mapWithIdx f i l v, List.getElem?_eq_getElem h]
  simp

theorem getD_zipWith' {α : Type u} {β : Type v} {γ : Type w} (f : α → β → γ)
    (as : List α) (bs : List β) (v : Nat) (d : γ) (da : α) (db : β)
    (ha : v < as.length) (hb : v < bs.length) :
    (List.zipWith f as bs).getD v d = f (as.getD v da) (bs.getD v db) := by
  rw [getD_eq_getElem?_getD', getD_eq_getElem?_getD', getD_eq_getElem?_getD',
    getElem?_zipWith' f as bs v, List.getElem?_eq_getElem ha,
    List.getElem?_eq_getElem hb]
  simp

theorem argmaxP_spec :
    ∀ (l : List K), l ≠ [] →
      (argmaxP l).1 < l.length ∧ l.getD (argmaxP l).1 0 = (argmaxP l).2 ∧
        ∀ v, v < l.length → l.getD v 0 ≤ (argmaxP l).2
  | [], h => absurd rfl h
  | [x], _ => by
      refine ⟨by simp [argmaxP], by simp [argmaxP], ?_⟩
      intro v hv
      simp only [List.length_singleton] at hv
      have hv0 : v = 0 := by omega
      subst hv0
      simp [argmaxP]
  | x :: y :: xs, _ => by
      obtain ⟨ih1, ih2, ih3⟩ := argmaxP_spec (y :: xs) (by simp)
      by_cases hx : x < (argmaxP (y :: xs)).2
      · have hres : argmaxP (x :: y :: xs) =
            ((argmaxP (y :: xs)).1 + 1, (argmaxP (y :: xs)).2) := by
          simp [argmaxP, hx]
        refine ⟨?_, ?_, ?_⟩
        · rw [hres]; simpa using Nat.succ_lt_succ ih1
        · rw [hres]; simpa using ih2
        · intro v hv
          rw [hres]
          match v with
          | 0 => simpa using le_of_lt hx
          | v + 1 =>
            simpa using ih3 v (by simpa using Nat.lt_of_succ_lt_succ hv)
      · have hres : argmaxP (x :: y :: xs) = (0, x) := by
          simp [argmaxP, hx]
        refine ⟨?_, ?_, ?_⟩
        · rw [hres]; simp
        · rw [hres]; simp
        · intro v hv
          rw [hres]
          match v with
          | 0 => simp
          | v + 1 =>
            have := ih3 v (by simpa using Nat.lt_of_succ_lt_succ hv)
            simpa using le_trans this (not_lt.mp hx)

theorem argminP_spec :
    ∀ (l : List K), l ≠ [] →
      (argminP l).1 < l.length ∧ l.getD (argminP l).1 0 = (argminP l).2 ∧
        ∀ v, v < l.length → (argminP l).2 ≤ l.getD v 0
  | [], h => absurd rfl h
  | [x], _ => by
      refine ⟨by simp [argminP], by simp [argminP], ?_⟩
      intro v hv
      simp only [List.length_singleton] at hv
      have hv0 : v = 0 := by omega
      subst hv0
      simp [argminP]
  | x :: y :: xs, _ => by
      obtain ⟨ih1, ih2, ih3⟩ := argminP_spec (y :: xs) (by simp)
      by_cases hx : (argminP (y :: xs)).2 < x
      · have hres : argminP (x :: y :: xs) =
            ((argminP (y :: xs)).1 + 1, (argminP (y :: xs)).2) := by
          simp [argminP, hx]
        refine ⟨?_, ?_, ?_⟩
        · rw [hres]; simpa using Nat.succ_lt_succ ih1
        · rw [hres]; simpa using ih2
        · intro v hv
          rw [hres]
          match v with
          | 0 => simpa using le_of_lt hx
          | v + 1 =>
            simpa using ih3 v (by simpa using Nat.lt_of_succ_lt_succ hv)
      · have hres : argminP (x :: y :: xs) = (0, x) := by
          simp [argminP, hx]
        refine ⟨?_, ?_, ?_⟩
        · rw [hres]; simp
        · rw [hres]; simp
        · intro v hv
          rw [hres]
          match v with
          | 0 => simp
          | v + 1 =>
            have := ih3 v (by simpa using Nat.lt_of_succ_lt_succ hv)
            simpa using le_trans (not_lt.mp hx) this


theorem getD_map' {α : Type u} {β : Type v} (f : α → β) (l : List α)
    (v : Nat) (d : β) (da : α) (h : v < l.length) :
    (l.map f).getD v d = f (l.getD v da) := by
  rw [getD_eq_getElem?_getD', getD_eq_getElem?_getD', List.getElem?_map,
    List.getElem?_eq_getElem h]
  simp

theorem getD_mem {α : Type u} (l : List α) (v : Nat) (d : α)
    (h : v < l.length) : l.getD v d ∈ l := by
  rw [getD_eq_getElem?_getD', List.getElem?_eq_getElem h]
  exact List.getElem_mem h

/-! ### Basic facts about one walksat_m iteration and the search loop -/

theorem mIter_eq (p : MParams K) (eta : Nat → Nat → Nat → K)
    (pick : Nat → Nat) (inputs : List (List Bool)) :
    mIter p eta pick inputs =
      if (mVc p inputs).sum = 0 then
        Except.ok (mVc p inputs, true, inputs)
      else if knownNoiseDist p.noiseDist then
        Except.ok (mVc p inputs, false,
          flipAll inputs (mSelect p eta pick inputs))
      else Except.error ("Unknown noise distribution: " ++ p.noiseDist) :=
  rfl

theorem mIter_ok (p : MParams K) (eta : Nat → Nat → Nat → K)
    (pick : Nat → Nat) (inputs : List (List Bool))
    (col : List Nat) (stop : Bool) (out : List (List Bool))
    (h : mIter p eta pick inputs = Except.ok (col, stop, out)) :
    col = mVc p inputs ∧
      (stop = true → (mVc p inputs).sum = 0 ∧ out = inputs) ∧
      (stop = false → (mVc p inputs).sum ≠ 0 ∧
        knownNoiseDist p.noiseDist = true ∧
        out = flipAll inputs (mSelect p eta pick inputs)) := by
  rw [mIter_eq] at h
  by_cases h0 : (mVc p inputs).sum = 0
  · rw [if_pos h0] at h
    simp only [Except.ok.injEq, Prod.mk.injEq] at h
    obtain ⟨h1, h2, h3⟩ := h
    subst h1; subst h2; subst h3
    exact ⟨rfl, fun _ => ⟨h0, rfl⟩, fun hf => by simp at hf⟩
  · rw [if_neg h0] at h
    by_cases hk : knownNoiseDist p.noiseDist
    · rw [if_pos hk] at h
      simp only [Except.ok.injEq, Prod.mk.injEq] at h
      obtain ⟨h1, h2, h3⟩ := h
      subst h1; subst h2; subst h3
      exact ⟨rfl, fun ht => by simp at ht, fun _ => ⟨h0, hk, rfl⟩⟩
    · rw [if_neg hk] at h
      exact absurd h (by simp)

theorem mRun_niters_le (p : MParams K) (eta : Nat → Nat → Nat → Nat → K)
    (pick : Nat → Nat → Nat) :
    ∀ (fuel it : Nat) (inputs : List (List Bool)) (traj : List (List Nat))
      (n : Nat) (t : List (List Nat)) (m : Nat) (b : List (List Bool)),
      mRun p eta pick fuel it inputs traj n = Except.ok (t, m, b) →
      m ≤ n + fuel
  | 0, it, inputs, traj, n, t, m, b, h => by
      simp only [mRun, Except.ok.injEq, Prod.mk.injEq] at h
      omega
  | fuel + 1, it, inputs, traj, n, t, m, b, h => by
      rw [mRun] at h
      cases hI : mIter p (eta it) (pick it) inputs with
      | error e => rw [hI] at h; exact absurd h (by simp)
      | ok trip =>
        obtain ⟨col, stop, inputs'⟩ := trip
        rw [hI] at h
        dsimp only at h
        cases stop with
        | true =>
          rw [if_pos rfl] at h
          simp only [Except.ok.injEq, Prod.mk.injEq] at h
          omega
        | false =>
          rw [if_neg (by simp)] at h
          have := mRun_niters_le p eta pick fuel (it + 1) inputs'
            (traj ++ [col]) (n + 1) t m b h
          omega

theorem stoppedEarly_of_mem {traj : List (List Nat)} {col : List Nat}
    (hmem : col ∈ traj) (hz : col.sum = 0) : stoppedEarly traj = true := by
  simp only [stoppedEarly, List.any_eq_true]
  exact ⟨col, hmem, by simp [hz]⟩

theorem mRun_no_stop (p : MParams K) (eta : Nat → Nat → Nat → Nat → K)
    (pick : Nat → Nat → Nat) :
    ∀ (fuel it : Nat) (inputs : List (List Bool)) (traj : List (List Nat))
      (n : Nat) (t : List (List Nat)) (m : Nat) (b : List (List Bool)),
      mRun p eta pick fuel it inputs traj n = Except.ok (t, m, b) →
      stoppedEarly t = false → m = n + fuel
  | 0, it, inputs, traj, n, t, m, b, h, _ => by
      simp only [mRun, Except.ok.injEq, Prod.mk.injEq] at h
      omega
  | fuel + 1, it, inputs, traj, n, t, m, b, h, hns => by
      rw [mRun] at h
      cases hI : mIter p (eta it) (pick it) inputs with
      | error e => rw [hI] at h; exact absurd h (by simp)
      | ok trip =>
        obtain ⟨col, stop, inputs'⟩ := trip
        rw [hI] at h
        dsimp only at h
        cases stop with
        | true =>
          exfalso
          rw [if_pos rfl] at h
          simp only [Except.ok.injEq, Prod.mk.injEq] at h
          obtain ⟨ht, hm, hb⟩ := h
          obtain ⟨hcol, hstop, _⟩ := mIter_ok p (eta it) (pick it) inputs
            col true inputs' hI
          have hz : col.sum = 0 := by rw [hcol]; exact (hstop rfl).1
          have hmem : col ∈ t := by rw [← ht]; simp
          rw [stoppedEarly_of_mem hmem hz] at hns
          exact absurd hns (by simp)
        | false =>
          rw [if_neg (by simp)] at h
          have := mRun_no_stop p eta pick fuel (it + 1) inputs'
            (traj ++ [col]) (n + 1) t m b h hns
          omega

/-! ### Basic facts about one walksat_g iteration and its loop -/

theorem gIter_eq (p : GParams K) (eta : Nat → Nat → K) (pick : Nat → Nat)
    (x : List (List Bool)) :
    gIter p eta pick x =
      if (gVc p x).sum = 0 then (gVc p x, true, x)
      else (gVc p x, false, flipAll x (gSelect p eta pick x)) :=
  rfl

theorem gIter_fst (p : GParams K) (eta : Nat → Nat → K) (pick : Nat → Nat)
    (x : List (List Bool)) : (gIter p eta pick x).1 = gVc p x := by
  rw [gIter_eq]
  by_cases h0 : (gVc p x).sum = 0
  · rw [if_pos h0]
  · rw [if_neg h0]

theorem gIter_stop (p : GParams K) (eta : Nat → Nat → K) (pick : Nat → Nat)
    (x : List (List Bool)) (h : (gIter p eta pick x).2.1 = true) :
    (gIter p eta pick x).1.sum = 0 := by
  rw [gIter_eq] at h ⊢
  by_cases h0 : (gVc p x).sum = 0
  · rw [if_pos h0]; exact h0
  · rw [if_neg h0] at h; exact absurd h (by simp)

theorem gRun_niters_le (p : GParams K) (eta : Nat → Nat → Nat → K)
    (pick : Nat → Nat → Nat) :
    ∀ (fuel it : Nat) (x : List (List Bool)) (traj : List (List Nat))
      (n : Nat),
      (gRun p eta pick fuel it x traj n).2.1 ≤ n + fuel
  | 0, it, x, traj, n => by simp [gRun]
  | fuel + 1, it, x, traj, n => by
      rw [gRun]
      cases hI : gIter p (eta it) (pick it) x with
      | mk col rest =>
        obtain ⟨stop, x'⟩ := rest
        dsimp only
        cases stop with
        | true => rw [if_pos rfl]; dsimp only; omega
        | false =>
          rw [if_neg (by simp)]
          have := gRun_niters_le p eta pick fuel (it + 1) x'
            (traj ++ [col]) (n + 1)
          omega

theorem gRun_no_stop (p : GParams K) (eta : Nat → Nat → Nat → K)
    (pick : Nat → Nat → Nat) :
    ∀ (fuel it : Nat) (x : List (List Bool)) (traj : List (List Nat))
      (n : Nat),
      stoppedEarly (gRun p eta pick fuel it x traj n).1 = false →
      (gRun p eta pick fuel it x traj n).2.1 = n + fuel
  | 0, it, x, traj, n, _ => by simp [gRun]
  | fuel + 1, it, x, traj, n, hns => by
      rw [gRun] at hns ⊢
      cases hI : gIter p (eta it) (pick it) x with
      | mk col rest =>
        obtain ⟨stop, x'⟩ := rest
        rw [hI] at hns
        dsimp only at hns ⊢
        cases stop with
        | true =>
          exfalso
          rw [if_pos rfl] at hns
          have hz : col.sum = 0 := by
            have := gIter_stop p (eta it) (pick it) x (by rw [hI])
            rw [hI] at this; exact this
          have : stoppedEarly (traj ++ [col]) = true :=
            stoppedEarly_of_mem (by simp) hz
          simp only [this] at hns
          exact absurd hns (by simp)
        | false =>
          rw [if_neg (by simp)] at hns ⊢
          have := gRun_no_stop p eta pick fuel (it + 1) x'
            (traj ++ [col]) (n + 1) hns
          omega

/-! ### Facts about flips and assignment rows -/

theorem numDiff_self : ∀ (r : List Bool), numDiff r r = 0
  | [] => rfl
  | b :: r => by
      have ih := numDiff_self r
      unfold numDiff at ih ⊢
      rw [List.zipWith_cons_cons, List.count_cons]
      simp only [ne_eq, decide_not] at ih ⊢
      rw [ih]
      simp

theorem numDiff_flipAt : ∀ (r : List Bool) (i : Nat), i < r.length →
    numDiff r (flipAt r i) = 1
  | [], i, h => by simp at h
  | b :: r, 0, _ => by
      have hz := numDiff_self r
      unfold numDiff at hz ⊢
      simp only [flipAt]
      rw [List.zipWith_cons_cons, List.count_cons]
      simp only [ne_eq, decide_not] at hz ⊢
      rw [hz]
      cases b <;> simp
  | b :: r, i + 1, h => by
      have ih := numDiff_flipAt r i (by simpa using Nat.lt_of_succ_lt_succ h)
      unfold numDiff at ih ⊢
      simp only [flipAt]
      rw [List.zipWith_cons_cons, List.count_cons]
      simp only [ne_eq, decide_not] at ih ⊢
      rw [ih]
      simp

/-! ### Shape facts for walksat_m -/

theorem length_addEta (row : List K) (f : Nat → K) :
    (addEta row f).length = row.length :=
  length_mapWithIdx _ _ _

theorem length_makeRow (row : List Bool) (ram : List (List K))
    (nvars : Nat) : (makeRow row ram nvars).length = nvars := by
  simp [makeRow]

theorem length_mMake (p : MParams K) (inputs : List (List Bool)) :
    (mMake p inputs).length = inputs.length := by
  simp [mMake, makeValues, tcamMatch]

theorem length_mVc (p : MParams K) (inputs : List (List Bool)) :
    (mVc p inputs).length = inputs.length := by
  simp [mVc, length_mMake]

theorem mMake_getD (p : MParams K) (inputs : List (List Bool)) (w : Nat)
    (h : w < inputs.length) :
    (mMake p inputs).getD w [] =
      makeRow ((tcamMatch inputs p.tcam).getD w []) p.ram p.nvars := by
  have hlen : w < (tcamMatch inputs p.tcam).length := by
    simpa [tcamMatch] using h
  exact getD_map' _ _ w [] [] hlen

theorem mVc_getD (p : MParams K) (inputs : List (List Bool)) (w : Nat)
    (h : w < inputs.length) :
    (mVc p inputs).getD w 0 =
      violatedConstrRow ((mMake p inputs).getD w []) := by
  have hlen : w < (mMake p inputs).length := by rw [length_mMake]; exact h
  exact getD_map' _ _ w 0 [] hlen

theorem mSelect_single (p : MParams K) (eta : Nat → Nat → Nat → K)
    (pick : Nat → Nat) (inputs : List (List Bool)) (h : p.nCores = 1) :
    mSelect p eta pick inputs =
      selectCore
        (mapWithIdx (fun w row => addEta row (eta 0 w)) 0 (mMake p inputs))
        (mVc p inputs) := by
  simp [mSelect, mCoreScores, h, mapWithIdx, mVc]

/-! ### Make values of a fully satisfied batch -/

theorem dotCol_eq_zero (row : List Bool) (ram : List (List K)) (v : Nat)
    (h : ∀ b ∈ row, b = false) : dotCol row ram v = 0 := by
  apply List.sum_eq_zero
  intro x hx
  simp only [dotCol, List.mem_map] at hx
  obtain ⟨pr, hpr, hx⟩ := hx
  have hb : pr.1 = false := h pr.1 (List.of_mem_zip hpr).1
  rw [← hx, hb]
  simp

theorem violatedConstrRow_makeRow_zero (row : List Bool)
    (ram : List (List K)) (nvars : Nat) (h : ∀ b ∈ row, b = false) :
    violatedConstrRow (makeRow row ram nvars) = 0 := by
  rw [violatedConstrRow, List.countP_eq_zero]
  intro q hq
  simp only [makeRow, List.mem_map] at hq
  obtain ⟨v, hv, hq⟩ := hq
  rw [← hq, dotCol_eq_zero row ram v h]
  simp

theorem mVc_of_all_satisfied (p : MParams K) (inputs : List (List Bool))
    (h : ∀ row ∈ tcamMatch inputs p.tcam, ∀ b ∈ row, b = false) :
    mVc p inputs = List.replicate inputs.length 0 := by
  rw [List.eq_replicate_iff]
  refine ⟨by rw [length_mVc], ?_⟩
  intro c hc
  simp only [mVc, mMake, makeValues, List.mem_map] at hc
  obtain ⟨mvrow, ⟨row, hrow, hmk⟩, hc⟩ := hc
  rw [← hc, ← hmk]
  exact violatedConstrRow_makeRow_zero row p.ram p.nvars (h row hrow)

/-! ### The claims -/

/-- C1: the spec claims that solve invokes the dispatched heuristic and that
the heuristic's value unpacks into exactly the components solve consumes.
On the code this fails: walksat_m returns the three-component tuple
`(violated_constr_mat, n_iters, inputs)` (heuristics.py line 117), while
solve unpacks the call's result into exactly two targets (solver.py line
99), so consuming any possible walksat_m result raises a ValueError.  This
theorem evaluates that consumption on every heuristic result. -/
theorem C1_unpack_mismatch (r : List (List Nat) × Nat × List (List Bool)) :
    unpackPair (mReturnTuple r) =
      Except.error "ValueError: unpacking mismatch" := rfl

/-- Witness for C1 at a concrete heuristic result. -/
theorem C1_unpack_mismatch_witness :
    unpackPair (mReturnTuple ([[1]], 1, [[true]])) =
      Except.error "ValueError: unpacking mismatch" :=
  C1_unpack_mismatch ([[1]], 1, [[true]])

/-- C9: a configuration without the "heuristic" key defaults the name to
"walksat_m", which is not a key of the dispatch table (whose only key is
"walksat-m"), so solve raises the unknown-heuristic error; dispatch
succeeds only when the configuration explicitly names "walksat-m". -/
theorem C9_default_heuristic_dispatch (config : List (String × String)) :
    ((config.find? fun kv => kv.1 = "heuristic") = none →
      solveDispatch config = Except.error "Unknown heuristic: walksat_m") ∧
    (∀ h, solveDispatch config = Except.ok h →
      configGet config "heuristic" "walksat_m" = "walksat-m") := by
  constructor
  · intro hfind
    have hname : configGet config "heuristic" "walksat_m" = "walksat_m" := by
      simp [configGet, hfind]
    simp only [solveDispatch, hname]
    rfl
  · intro h hok
    by_cases heq :
      ("walksat-m" : String) = configGet config "heuristic" "walksat_m"
    · exact heq.symm
    · exfalso
      simp only [solveDispatch] at hok
      rw [show (heuristics_dict.find? fun kv =>
          kv.1 = configGet config "heuristic" "walksat_m") = none by
        simp [heuristics_dict, List.find?_cons, heq]] at hok
      simp at hok

/-- Witness for C9 at the empty configuration. -/
theorem C9_default_heuristic_dispatch_witness :
    solveDispatch [] = Except.error "Unknown heuristic: walksat_m" :=
  (C9_default_heuristic_dispatch []).1 rfl

/-- C10: after any successful walksat_m run the iterations-to-solution
vector built by solve has at most `n_iters` entries while
`n_iters <= max_flips`, so the solve-task lookup `its[max_flips]`
(solver.py line 124) always indexes past the end of the vector. -/
theorem C10_its_lookup_out_of_bounds (K : Type) [LinearOrderedCommRing K]
    (p : MParams K) (eta : Nat → Nat → Nat → Nat → K)
    (pick : Nat → Nat → Nat) (in0 : List (List Bool))
    (t : List (List Nat)) (n : Nat) (b : List (List Bool)) (pvt : List K)
    (f : Nat → K → K)
    (h : walksat_m_run p eta pick in0 = Except.ok (t, n, b)) :
    (vector_its (iterationVector n) pvt f)[p.maxFlips]? = none := by
  rw [walksat_m_run] at h
  have hn : n ≤ p.maxFlips := by
    simpa using mRun_niters_le p eta pick p.maxFlips 0 in0 [] 0 t n b h
  apply List.getElem?_eq_none
  have hlen : (vector_its (iterationVector n) pvt f).length =
      min n pvt.length := by
    simp [vector_its, iterationVector]
  omega

/-- Witness for C10 at a concrete run. -/
theorem C10_its_lookup_out_of_bounds_witness :
    (vector_its (iterationVector 1) ([] : List ℤ)
      (fun _ q => q))[mpSat.maxFlips]? = none :=
  C10_its_lookup_out_of_bounds ℤ mpSat etaZero4 pickZero2 [[false]]
    [List.replicate 1 0] 1 [[false]] [] (fun _ q => q) (by decide)

/-- C6: when every walker of the initial batch satisfies every constraint
(the ternary match triggers nothing), the walksat_m loop stops at iteration
1: the returned count is 1, the single recorded trajectory column is all
zeros, and the returned batch is the initial batch unchanged. -/
theorem C6_satisfied_start (K : Type) [LinearOrderedCommRing K]
    (p : MParams K) (eta : Nat → Nat → Nat → Nat → K)
    (pick : Nat → Nat → Nat) (in0 : List (List Bool))
    (hflips : 1 ≤ p.maxFlips)
    (hsat : ∀ row ∈ tcamMatch in0 p.tcam, ∀ b ∈ row, b = false) :
    walksat_m_run p eta pick in0 =
      Except.ok ([List.replicate in0.length 0], 1, in0) := by
  obtain ⟨fuel, hfuel⟩ : ∃ fuel, p.maxFlips = fuel + 1 :=
    ⟨p.maxFlips - 1, by omega⟩
  have hvc := mVc_of_all_satisfied p in0 hsat
  have hsum : (mVc p in0).sum = 0 := by rw [hvc]; simp
  rw [walksat_m_run, hfuel, mRun, mIter_eq, if_pos hsum]
  dsimp only
  rw [if_pos rfl, hvc]
  simp

/-- Witness for C6 at a concrete satisfied instance. -/
theorem C6_satisfied_start_witness :
    walksat_m_run mpSat etaZero4 pickZero2 [[false]] =
      Except.ok ([List.replicate 1 0], 1, [[false]]) :=
  C6_satisfied_start ℤ mpSat etaZero4 pickZero2 [[false]] (by decide)
    (by decide)

/-- C5: with core count 1 the reduction-pick step of walksat_m is a no-op:
the update vector equals, walker by walker, the sentinel for satisfied
walkers and otherwise the argmax of the noise-perturbed global score row,
and it does not depend on the reduction-pick random stream. -/
theorem C5_single_core_no_reduction (K : Type) [LinearOrderedCommRing K]
    (p : MParams K) (eta : Nat → Nat → Nat → K) (pick pick2 : Nat → Nat)
    (inputs : List (List Bool)) (h : p.nCores = 1) :
    mSelect p eta pick inputs =
      List.zipWith
        (fun row c => if c = 0 then (-1 : ℤ) else ((argmaxP row).1 : ℤ))
        (mapWithIdx (fun w row => addEta row (eta 0 w)) 0 (mMake p inputs))
        (mVc p inputs) ∧
    mSelect p eta pick inputs = mSelect p eta pick2 inputs := by
  constructor
  · rw [mSelect_single p eta pick inputs h]; rfl
  · rw [mSelect_single p eta pick inputs h,
      mSelect_single p eta pick2 inputs h]

/-- Witness for C5 at a concrete single-core instance and two different
pick streams. -/
theorem C5_single_core_no_reduction_witness :
    mSelect mpSat etaZero3 pickZero1 [[true]] =
      List.zipWith
        (fun row c => if c = 0 then (-1 : ℤ) else ((argmaxP row).1 : ℤ))
        (mapWithIdx (fun w row => addEta row (etaZero3 0 w)) 0
          (mMake mpSat [[true]]))
        (mVc mpSat [[true]]) ∧
    mSelect mpSat etaZero3 pickZero1 [[true]] =
      mSelect mpSat etaZero3 pickOne1 [[true]] :=
  C5_single_core_no_reduction ℤ mpSat etaZero3 pickZero1 pickOne1
    [[true]] rfl

/-- C4 (counterexample): the claim says an unknown noise-distribution name
is fatal immediately, before any loop iteration and any partial
computation.  On the code the check sits inside the loop after the
trajectory column and the early-stop test: with the unknown name "bogus"
and an initially satisfied batch, walksat_m returns normally and no error
is ever raised. -/
theorem C4_counterexample_no_immediate_error :
    knownNoiseDist "bogus" = false ∧
    walksat_m_run mpBogus etaZero4 pickZero2 [[false]] =
      Except.ok ([[0]], 1, [[false]]) :=
  ⟨by decide, by decide⟩

/-- C4 (amended): in walksat_m an unknown noise-distribution name raises
the ValueError only when the first iteration reaches the noise step, i.e.
after that iteration's match, score, trajectory column and early-stop
check: if the initial batch is fully satisfied the run early-stops at
iteration 1 and returns normally, otherwise the run fails with the
unknown-distribution error. -/
theorem C4_amended_noise_gate (K : Type) [LinearOrderedCommRing K]
    (p : MParams K) (eta : Nat → Nat → Nat → Nat → K)
    (pick : Nat → Nat → Nat) (in0 : List (List Bool))
    (hk : knownNoiseDist p.noiseDist = false) (hflips : 1 ≤ p.maxFlips) :
    ((mVc p in0).sum = 0 →
      walksat_m_run p eta pick in0 = Except.ok ([mVc p in0], 1, in0)) ∧
    ((mVc p in0).sum ≠ 0 →
      walksat_m_run p eta pick in0 =
        Except.error ("Unknown noise distribution: " ++ p.noiseDist)) := by
  obtain ⟨fuel, hfuel⟩ : ∃ fuel, p.maxFlips = fuel + 1 :=
    ⟨p.maxFlips - 1, by omega⟩
  constructor
  · intro h0
    rw [walksat_m_run, hfuel, mRun, mIter_eq, if_pos h0]
    dsimp only
    rw [if_pos rfl]
    simp
  · intro h0
    rw [walksat_m_run, hfuel, mRun, mIter_eq, if_neg h0,
      if_neg (by simp [hk])]

/-- Witness for the amended C4 at a concrete unsatisfied start. -/
theorem C4_amended_noise_gate_witness :
    walksat_m_run mpBogus etaZero4 pickZero2 [[true]] =
      Except.error ("Unknown noise distribution: " ++ "bogus") :=
  (C4_amended_noise_gate ℤ mpBogus etaZero4 pickZero2 [[true]] (by decide)
    (by decide)).2 (by decide)

/-- C3 (counterexample): the claim says the returned iteration count equals
max_flips iff the early stop never triggered, for every heuristic variant.
walksat_g loops over `range(max_flips - 1)` (heuristics.py line 162): on
the contradictory one-variable instance with max_flips = 2 the run executes
one iteration, never early-stops, and returns count 1, not 2. -/
theorem C3_counterexample_walksat_g :
    walksat_g_run gpContra etaZeroG pickZero2 [[true]] =
      ([[1]], 1, [[false]]) ∧
    stoppedEarly [[1]] = false ∧ (1 : Nat) ≠ gpContra.maxFlips := by
  refine ⟨by decide, by decide, by decide⟩

/-- C3 (amended): for every run, the returned iteration count is at most
max_flips; for walksat_m the count equals max_flips whenever the early stop
never triggered, while walksat_g runs its loop over `range(max_flips - 1)`,
so its count is at most max_flips - 1 and equals max_flips - 1 whenever the
early stop never triggered. -/
theorem C3_amended_iterations :
    (∀ (K : Type) [LinearOrderedCommRing K] (p : MParams K)
        (eta : Nat → Nat → Nat → Nat → K) (pick : Nat → Nat → Nat)
        (in0 : List (List Bool)) (t : List (List Nat)) (n : Nat)
        (b : List (List Bool)),
        walksat_m_run p eta pick in0 = Except.ok (t, n, b) →
          n ≤ p.maxFlips ∧ (stoppedEarly t = false → n = p.maxFlips)) ∧
    (∀ (K : Type) [LinearOrderedCommRing K] (p : GParams K)
        (eta : Nat → Nat → Nat → K) (pick : Nat → Nat → Nat)
        (x0 : List (List Bool)),
        (walksat_g_run p eta pick x0).2.1 ≤ p.maxFlips - 1 ∧
          (stoppedEarly (walksat_g_run p eta pick x0).1 = false →
            (walksat_g_run p eta pick x0).2.1 = p.maxFlips - 1)) := by
  constructor
  · intro K _ p eta pick in0 t n b h
    rw [walksat_m_run] at h
    constructor
    · simpa using mRun_niters_le p eta pick p.maxFlips 0 in0 [] 0 t n b h
    · intro hns
      simpa using mRun_no_stop p eta pick p.maxFlips 0 in0 [] 0 t n b h hns
  · intro K _ p eta pick x0
    rw [walksat_g_run]
    constructor
    · simpa using gRun_niters_le p eta pick (p.maxFlips - 1) 0 x0 [] 0
    · intro hns
      simpa using gRun_no_stop p eta pick (p.maxFlips - 1) 0 x0 [] 0 hns

/-- Witness for the amended C3 at concrete runs of both variants. -/
theorem C3_amended_iterations_witness :
    (1 ≤ mpSat.maxFlips ∧
      (stoppedEarly [List.replicate 1 0] = false → 1 = mpSat.maxFlips)) ∧
    ((walksat_g_run gpContra etaZeroG pickZero2 [[true]]).2.1 ≤
        gpContra.maxFlips - 1 ∧
      (stoppedEarly (walksat_g_run gpContra etaZeroG pickZero2 [[true]]).1 =
          false →
        (walksat_g_run gpContra etaZeroG pickZero2 [[true]]).2.1 =
          gpContra.maxFlips - 1)) :=
  ⟨C3_amended_iterations.1 ℤ mpSat etaZero4 pickZero2 [[false]]
      [List.replicate 1 0] 1 [[false]] (by decide),
    C3_amended_iterations.2 ℤ gpContra etaZeroG pickZero2 [[true]]⟩

/-- C2 (counterexample): the claim says that in every variant, including
the multi-core case, a walker with at least one violated constraint flips
exactly one variable.  On the two-core instance `mpTwoCores` the walker
(1, 1) violates the global constraint set (trajectory entry 1), but core 1
sees only its locally satisfied partition and proposes the sentinel; the
random reduction picks core 1, so the walker flips nothing: the batch is
returned unchanged. -/
theorem C2_counterexample_multicore_no_flip :
    mIter mpTwoCores etaZero3 pickOne1 [[true, true]] =
      Except.ok ([1], false, [[true, true]]) ∧
    numDiff [true, true] [true, true] = 0 :=
  ⟨by decide, by decide⟩

/-- C2 (amended): in the single-core case, each walksat_m iteration leaves
every satisfied walker's row unchanged and flips exactly one variable of
every unsatisfied walker's row; in the multi-core case each core proposes
the sentinel for walkers whose local partition shows no unsatisfied
variable, and the random reduction can hand that sentinel to a globally
unsatisfied walker, which then does not flip. -/
theorem C2_amended_single_core_flip (K : Type) [LinearOrderedCommRing K]
    (p : MParams K) (eta : Nat → Nat → Nat → K) (pick : Nat → Nat)
    (in0 : List (List Bool)) (col : List Nat) (stop : Bool)
    (out : List (List Bool)) (hc : p.nCores = 1)
    (hrows : ∀ r ∈ in0, r.length = p.nvars)
    (h : mIter p eta pick in0 = Except.ok (col, stop, out)) :
    ∀ w, w < in0.length →
      (col.getD w 0 = 0 → out.getD w [] = in0.getD w []) ∧
      (col.getD w 0 ≠ 0 →
        numDiff (in0.getD w []) (out.getD w []) = 1) := by
  obtain ⟨hcol, hstop, hnostop⟩ := mIter_ok p eta pick in0 col stop out h
  subst hcol
  intro w hw
  have hwvc : w < (mVc p in0).length := by rw [length_mVc]; exact hw
  cases stop with
  | true =>
    obtain ⟨hsum, hout⟩ := hstop rfl
    subst hout
    refine ⟨fun _ => rfl, fun hne => absurd ?_ hne⟩
    exact (List.sum_eq_zero_iff.mp hsum) _ (getD_mem _ w 0 hwvc)
  | false =>
    obtain ⟨hsum, hknown, hout⟩ := hnostop rfl
    subst hout
    rw [mSelect_single p eta pick in0 hc]
    have hmlen : w < (mMake p in0).length := by rw [length_mMake]; exact hw
    have hnlen :
        (mapWithIdx (fun w row => addEta row (eta 0 w)) 0
          (mMake p in0)).length = in0.length := by
      rw [length_mapWithIdx, length_mMake]
    have hulen :
        (selectCore
          (mapWithIdx (fun w row => addEta row (eta 0 w)) 0 (mMake p in0))
          (mVc p in0)).length = in0.length := by
      rw [selectCore, List.length_zipWith, hnlen, length_mVc]
      simp
    have hflip :
        (flipAll in0
          (selectCore
            (mapWithIdx (fun w row => addEta row (eta 0 w)) 0
              (mMake p in0)) (mVc p in0))).getD w [] =
          (fun row (u : ℤ) => if u < 0 then row else flipAt row u.toNat)
            (in0.getD w [])
            ((selectCore
              (mapWithIdx (fun w row => addEta row (eta 0 w)) 0
                (mMake p in0)) (mVc p in0)).getD w (-1)) := by
      rw [flipAll]
      exact getD_zipWith' _ in0 _ w [] [] (-1) hw (by rw [hulen]; exact hw)
    have hsel :
        (selectCore
          (mapWithIdx (fun w row => addEta row (eta 0 w)) 0 (mMake p in0))
          (mVc p in0)).getD w (-1) =
          (fun (row : List K) (c : Nat) =>
            if c = 0 then (-1 : ℤ) else ((argmaxP row).1 : ℤ))
            ((mapWithIdx (fun w row => addEta row (eta 0 w)) 0
              (mMake p in0)).getD w [])
            ((mVc p in0).getD w 0) := by
      rw [selectCore]
      exact getD_zipWith' _ _ _ w (-1) [] 0 (by rw [hnlen]; exact hw) hwvc
    have hnrow :
        (mapWithIdx (fun w row => addEta row (eta 0 w)) 0
          (mMake p in0)).getD w [] =
          addEta ((mMake p in0).getD w []) (eta 0 w) := by
      have := getD_mapWithIdx (fun w row => addEta row (eta 0 w)) 0
        (mMake p in0) w [] [] hmlen
      simpa using this
    by_cases hvz : (mVc p in0).getD w 0 = 0
    · refine ⟨fun _ => ?_, fun hne => absurd hvz hne⟩
      rw [hflip, hsel, hvz]
      simp
    · refine ⟨fun h0 => absurd h0 hvz, fun _ => ?_⟩
      have hrowlen : ((mMake p in0).getD w []).length = p.nvars := by
        rw [mMake_getD p in0 w hw, length_makeRow]
      have hvcrow : violatedConstrRow ((mMake p in0).getD w []) ≠ 0 := by
        rw [← mVc_getD p in0 w hw]; exact hvz
      have hrowne : addEta ((mMake p in0).getD w []) (eta 0 w) ≠ [] := by
        intro hnil
        apply hvcrow
        have : ((mMake p in0).getD w []).length = 0 := by
          rw [← length_addEta _ (eta 0 w), hnil]; rfl
        rw [List.length_eq_zero.mp this]
        rfl
      obtain ⟨hidx, _, _⟩ :=
        argmaxP_spec (addEta ((mMake p in0).getD w []) (eta 0 w)) hrowne
      rw [hflip, hsel, hnrow]
      dsimp only
      rw [if_neg hvz]
      have hnonneg :
          ¬ ((((argmaxP (addEta ((mMake p in0).getD w []) (eta 0 w))).1 :
            ℤ)) < 0) := by
        exact not_lt.mpr (Int.ofNat_nonneg _)
      rw [if_neg hnonneg]
      have hln : (in0.getD w []).length = p.nvars :=
        hrows _ (getD_mem in0 w [] hw)
      apply numDiff_flipAt
      rw [hln]
      rw [length_addEta, hrowlen] at hidx
      simpa using hidx

/-- Witness for the amended C2 at a concrete single-core iteration. -/
theorem C2_amended_single_core_flip_witness :
    (([1] : List Nat).getD 0 0 = 0 →
      ([[false]] : List (List Bool)).getD 0 [] =
        ([[true]] : List (List Bool)).getD 0 []) ∧
    (([1] : List Nat).getD 0 0 ≠ 0 →
      numDiff (([[true]] : List (List Bool)).getD 0 [])
        (([[false]] : List (List Bool)).getD 0 []) = 1) :=
  C2_amended_single_core_flip ℤ mpSat etaZero3 pickZero1 [[true]] [1] false
    [[false]] rfl (by decide) (by decide) 0 (by decide)

/-! ### The freebie-aware mask and masked selection -/

theorem getD_addEta (row : List K) (f : Nat → K) (v : Nat)
    (h : v < row.length) :
    (addEta row f).getD v 0 = row.getD v 0 + f v := by
  have := getD_mapWithIdx (fun v q => q + f v) 0 row v 0 0 h
  simpa using this

theorem length_freebieRow (mv bv : List K) :
    (freebieRow mv bv).length = min mv.length bv.length := by
  simp [freebieRow]

theorem length_skcMaskRow (mv bv : List K) :
    (skcMaskRow mv bv).length = min mv.length bv.length := by
  simp [skcMaskRow, tmp1Row, tmp2Row]

theorem freebieRow_getD (mv bv : List K) (v : Nat) (hv : v < mv.length)
    (hl : mv.length = bv.length) :
    (freebieRow mv bv).getD v false =
      (decide ((1 : K) ≤ mv.getD v 0) && decide (bv.getD v 0 = 0)) := by
  rw [freebieRow]
  exact getD_zipWith' _ mv bv v false 0 0 hv (hl ▸ hv)

theorem skcMaskRow_getD (mv bv : List K) (hl : mv.length = bv.length)
    (v : Nat) (hv : v < mv.length) :
    (skcMaskRow mv bv).getD v false =
      if hasFreebie mv bv = true then !((freebieRow mv bv).getD v false)
      else decide (mv.getD v 0 < 1) := by
  rw [skcMaskRow]
  have h1 : v < (tmp1Row mv).length := by simpa [tmp1Row] using hv
  have h2 : v < (tmp2Row bv).length := by
    rw [tmp2Row, List.length_map, ← hl]; exact hv
  rw [getD_zipWith' _ _ _ v false false false h1 h2]
  have ht1 : (tmp1Row mv).getD v false = decide (mv.getD v 0 < 1) := by
    rw [tmp1Row]; exact getD_map' _ mv v false 0 hv
  have ht2 : (tmp2Row bv).getD v false = decide (bv.getD v 0 = 0) := by
    rw [tmp2Row]; exact getD_map' _ bv v false 0 (hl ▸ hv)
  rw [ht1, ht2, freebieRow_getD mv bv v hv hl]
  have ha : decide (mv.getD v 0 < 1) =
      !decide ((1 : K) ≤ mv.getD v 0) := by
    rw [← decide_not]
    exact decide_eq_decide.mpr not_le.symm
  by_cases h3 : hasFreebie mv bv = true
  · rw [h3, if_pos rfl, ha]
    cases hc : decide ((1 : K) ≤ mv.getD v 0) <;>
      cases hb : decide (bv.getD v 0 = 0) <;> rfl
  · have h3f : hasFreebie mv bv = false := by simpa using h3
    rw [if_neg h3, h3f]
    simp

theorem exists_freebie_index (mv bv : List K) (hl : mv.length = bv.length)
    (h : hasFreebie mv bv = true) :
    ∃ v, v < mv.length ∧ (freebieRow mv bv).getD v false = true ∧
      (1 : K) ≤ mv.getD v 0 ∧ bv.getD v 0 = 0 := by
  rw [hasFreebie, List.any_eq_true] at h
  obtain ⟨x, hx, hid⟩ := h
  obtain ⟨v, hv, hxv⟩ := List.mem_iff_getElem.mp hx
  have hvm : v < mv.length := by
    rw [length_freebieRow] at hv; omega
  have hgetD : (freebieRow mv bv).getD v false = x := by
    rw [getD_eq_getElem?_getD', List.getElem?_eq_getElem hv, hxv]
    rfl
  have hxt : x = true := by simpa using hid
  have hfree := freebieRow_getD mv bv v hvm hl
  rw [hgetD, hxt] at hfree
  have hand := (Bool.and_eq_true _ _).mp hfree.symm
  exact ⟨v, hvm, by rw [hgetD, hxt],
    of_decide_eq_true hand.1, of_decide_eq_true hand.2⟩

theorem maskTo_getD (y : List K) (m : List Bool) (c : K) (v : Nat)
    (hy : v < y.length) (hm : v < m.length) :
    (maskTo y m c).getD v 0 = if m.getD v false then c else y.getD v 0 := by
  rw [maskTo]
  exact getD_zipWith' _ y m v 0 0 false hy hm

theorem argmax_maskTo_unmasked (y : List K) (m : List Bool) (c : K)
    (hlen : y.length ≤ m.length) (v0 : Nat) (hv0 : v0 < y.length)
    (hm0 : m.getD v0 false = false) (hgt : c < y.getD v0 0) :
    (argmaxP (maskTo y m c)).1 < y.length ∧
      m.getD (argmaxP (maskTo y m c)).1 false = false := by
  have hzlen : (maskTo y m c).length = y.length := by
    rw [maskTo, List.length_zipWith]; omega
  have hzne : maskTo y m c ≠ [] := by
    intro hnil
    rw [hnil] at hzlen
    simp at hzlen
    omega
  obtain ⟨hidx, hval, hmax⟩ := argmaxP_spec (maskTo y m c) hzne
  rw [hzlen] at hidx
  refine ⟨hidx, ?_⟩
  have hz0 : (maskTo y m c).getD v0 0 = y.getD v0 0 := by
    rw [maskTo_getD y m c v0 hv0 (by omega), hm0]
    simp
  by_cases hmi : m.getD (argmaxP (maskTo y m c)).1 false = false
  · exact hmi
  · exfalso
    have hmi' : m.getD (argmaxP (maskTo y m c)).1 false = true := by
      simpa using hmi
    have hzi : (maskTo y m c).getD (argmaxP (maskTo y m c)).1 0 = c := by
      rw [maskTo_getD y m c _ hidx (by omega), hmi']
      simp
    have hle := hmax v0 (by rw [hzlen]; exact hv0)
    rw [hz0, ← hval, hzi] at hle
    exact absurd (lt_of_lt_of_le hgt hle) (lt_irrefl c)

theorem argmin_maskTo_unmasked (y : List K) (m : List Bool) (c : K)
    (hlen : y.length ≤ m.length) (v0 : Nat) (hv0 : v0 < y.length)
    (hm0 : m.getD v0 false = false) (hlt : y.getD v0 0 < c) :
    (argminP (maskTo y m c)).1 < y.length ∧
      m.getD (argminP (maskTo y m c)).1 false = false ∧
      ∀ v, v < y.length → m.getD v false = false →
        y.getD (argminP (maskTo y m c)).1 0 ≤ y.getD v 0 := by
  have hzlen : (maskTo y m c).length = y.length := by
    rw [maskTo, List.length_zipWith]; omega
  have hzne : maskTo y m c ≠ [] := by
    intro hnil
    rw [hnil] at hzlen
    simp at hzlen
    omega
  obtain ⟨hidx, hval, hmin⟩ := argminP_spec (maskTo y m c) hzne
  rw [hzlen] at hidx
  have hz0 : (maskTo y m c).getD v0 0 = y.getD v0 0 := by
    rw [maskTo_getD y m c v0 hv0 (by omega), hm0]
    simp
  have hunmasked : m.getD (argminP (maskTo y m c)).1 false = false := by
    by_cases hmi : m.getD (argminP (maskTo y m c)).1 false = false
    · exact hmi
    · exfalso
      have hmi' : m.getD (argminP (maskTo y m c)).1 false = true := by
        simpa using hmi
      have hzi : (maskTo y m c).getD (argminP (maskTo y m c)).1 0 = c := by
        rw [maskTo_getD y m c _ hidx (by omega), hmi']
        simp
      have hle := hmin v0 (by rw [hzlen]; exact hv0)
      rw [hz0, ← hval, hzi] at hle
      exact absurd (lt_of_le_of_lt hle hlt) (lt_irrefl c)
  refine ⟨hidx, hunmasked, ?_⟩
  intro v hv hmv
  have hzi : (maskTo y m c).getD (argminP (maskTo y m c)).1 0 =
      y.getD (argminP (maskTo y m c)).1 0 := by
    rw [maskTo_getD y m c _ hidx (by omega), hunmasked]
    simp
  have hzv : (maskTo y m c).getD v 0 = y.getD v 0 := by
    rw [maskTo_getD y m c v hv (by omega), hmv]
    simp
  have hle := hmin v (by rw [hzlen]; exact hv)
  rw [hzv, ← hval, hzi] at hle
  exact hle

/-- C7: in the freebie-aware variants, for every walker row: the mask
`tmp5` equals, entrywise, the complement of the freebie indicator whenever
some freebie exists and otherwise the indicator of make value below 1; when
a freebie exists walksat_SKCseq (no noise) always selects a freebie
variable, and walksat_SKC selects a freebie variable whenever some
freebie's noise-perturbed gain exceeds the masking score -1000 (the noise
samples are unbounded, so this side condition is what the extreme-low-score
masking guarantees). -/
theorem C7_freebie_masking (K : Type) [LinearOrderedCommRing K]
    (mv bv : List K) (hl : mv.length = bv.length) :
    (∀ v, v < mv.length →
      (skcMaskRow mv bv).getD v false =
        if hasFreebie mv bv = true then !((freebieRow mv bv).getD v false)
        else decide (mv.getD v 0 < 1)) ∧
    (hasFreebie mv bv = true →
      (skcseqSelectRow mv bv).toNat < mv.length ∧
      (freebieRow mv bv).getD (skcseqSelectRow mv bv).toNat false =
        true) ∧
    (∀ eta : Nat → K, hasFreebie mv bv = true →
      (∃ v, v < mv.length ∧ (freebieRow mv bv).getD v false = true ∧
        (-1000 : K) < mv.getD v 0 - bv.getD v 0 + eta v) →
      (skcSelectRow mv bv eta).toNat < mv.length ∧
      (freebieRow mv bv).getD (skcSelectRow mv bv eta).toNat false =
        true) := by
  have hglen : (List.zipWith (fun (a : K) b => a - b) mv bv).length =
      mv.length := by
    rw [List.length_zipWith, hl, Nat.min_self]
  have hmlen : (List.zipWith (fun (a : K) b => a - b) mv bv).length ≤
      (skcMaskRow mv bv).length := by
    rw [hglen, length_skcMaskRow, hl, Nat.min_self]
  refine ⟨fun v hv => skcMaskRow_getD mv bv hl v hv, ?_, ?_⟩
  · intro h3
    obtain ⟨v0, hv0, hfv0, hm1, hb0⟩ := exists_freebie_index mv bv hl h3
    have hvc : violatedConstrRow mv ≠ 0 := by
      rw [violatedConstrRow]
      intro hz
      have hnp := List.countP_eq_zero.mp hz _ (getD_mem mv v0 0 hv0)
      simp only [decide_eq_true_eq] at hnp
      exact hnp (lt_of_lt_of_le zero_lt_one hm1)
    have hsel : skcseqSelectRow mv bv =
        ((argmaxP (maskTo (List.zipWith (fun a b => a - b) mv bv)
          (skcMaskRow mv bv) (-1000))).1 : ℤ) := by
      rw [skcseqSelectRow, if_neg hvc]
    have hmask0 : (skcMaskRow mv bv).getD v0 false = false := by
      rw [skcMaskRow_getD mv bv hl v0 hv0, if_pos h3, hfv0]
      rfl
    have hgv0 : (List.zipWith (fun (a : K) b => a - b) mv bv).getD v0 0 =
        mv.getD v0 0 - bv.getD v0 0 :=
      getD_zipWith' _ mv bv v0 0 0 0 hv0 (by rw [← hl]; exact hv0)
    have hgt : (-1000 : K) <
        (List.zipWith (fun (a : K) b => a - b) mv bv).getD v0 0 := by
      rw [hgv0, hb0, sub_zero]
      calc (-1000 : K) < 1 := by norm_num
        _ ≤ mv.getD v0 0 := hm1
    obtain ⟨hidx, hunm⟩ := argmax_maskTo_unmasked
      (List.zipWith (fun a b => a - b) mv bv) (skcMaskRow mv bv) (-1000)
      hmlen v0 (by rw [hglen]; exact hv0) hmask0 hgt
    rw [hglen] at hidx
    have hfree : (freebieRow mv bv).getD
        (argmaxP (maskTo (List.zipWith (fun a b => a - b) mv bv)
          (skcMaskRow mv bv) (-1000))).1 false = true := by
      have hchar := skcMaskRow_getD mv bv hl _ hidx
      rw [if_pos h3, hunm] at hchar
      cases hf : (freebieRow mv bv).getD
          (argmaxP (maskTo (List.zipWith (fun a b => a - b) mv bv)
            (skcMaskRow mv bv) (-1000))).1 false
      · rw [hf] at hchar; simp at hchar
      · rfl
    rw [hsel]
    refine ⟨by simpa using hidx, by simpa using hfree⟩
  · intro eta h3 hex
    obtain ⟨v1, hv1, hfv1, hgt1⟩ := hex
    obtain ⟨v0, hv0, hfv0, hm1, hb0⟩ := exists_freebie_index mv bv hl h3
    have hvc : violatedConstrRow mv ≠ 0 := by
      rw [violatedConstrRow]
      intro hz
      have hnp := List.countP_eq_zero.mp hz _ (getD_mem mv v0 0 hv0)
      simp only [decide_eq_true_eq] at hnp
      exact hnp (lt_of_lt_of_le zero_lt_one hm1)
    have hsel : skcSelectRow mv bv eta =
        ((argmaxP (maskTo
          (addEta (List.zipWith (fun a b => a - b) mv bv) eta)
          (skcMaskRow mv bv) (-1000))).1 : ℤ) := by
      rw [skcSelectRow, if_neg hvc]
    have hylen : (addEta (List.zipWith (fun (a : K) b => a - b) mv bv)
        eta).length = mv.length := by
      rw [length_addEta, hglen]
    have hmask1 : (skcMaskRow mv bv).getD v1 false = false := by
      rw [skcMaskRow_getD mv bv hl v1 hv1, if_pos h3, hfv1]
      rfl
    have hyv1 : (addEta (List.zipWith (fun (a : K) b => a - b) mv bv)
        eta).getD v1 0 = mv.getD v1 0 - bv.getD v1 0 + eta v1 := by
      rw [getD_addEta _ eta v1 (by rw [hglen]; exact hv1),
        getD_zipWith' _ mv bv v1 0 0 0 hv1 (by rw [← hl]; exact hv1)]
    obtain ⟨hidx, hunm⟩ := argmax_maskTo_unmasked
      (addEta (List.zipWith (fun a b => a - b) mv bv) eta)
      (skcMaskRow mv bv) (-1000) (by rw [hylen, length_skcMaskRow, hl,
        Nat.min_self]) v1 (by rw [hylen]; exact hv1) hmask1
      (by rw [hyv1]; exact hgt1)
    rw [hylen] at hidx
    have hfree : (freebieRow mv bv).getD
        (argmaxP (maskTo
          (addEta (List.zipWith (fun a b => a - b) mv bv) eta)
          (skcMaskRow mv bv) (-1000))).1 false = true := by
      have hchar := skcMaskRow_getD mv bv hl _ hidx
      rw [if_pos h3, hunm] at hchar
      cases hf : (freebieRow mv bv).getD
          (argmaxP (maskTo
            (addEta (List.zipWith (fun a b => a - b) mv bv) eta)
            (skcMaskRow mv bv) (-1000))).1 false
      · rw [hf] at hchar; simp at hchar
      · rfl
    rw [hsel]
    refine ⟨by simpa using hidx, by simpa using hfree⟩

/-- Witness for C7 at a concrete row with a freebie. -/
theorem C7_freebie_masking_witness :
    (skcseqSelectRow ([2, 0] : List ℤ) [0, 3]).toNat < 2 ∧
    (freebieRow ([2, 0] : List ℤ) [0, 3]).getD
      (skcseqSelectRow ([2, 0] : List ℤ) [0, 3]).toNat false = true :=
  (C7_freebie_masking ℤ [2, 0] [0, 3] rfl).2.1 (by decide)

/-- C8: in walksat_B2seq the per-walker score is the break value and the
greedy choice is the argmin over the non-masked variables (provided all
break values stay below the masking score 1000, which holds whenever the
clause count does); and for walkers that have a freebie the
random-candidate fallback is disabled, so the greedy (freebie) choice is
kept whatever the Bernoulli draw and the random rank give. -/
theorem C8_break_minimizing (K : Type) [LinearOrderedCommRing K]
    (mv bv : List K) (hl : mv.length = bv.length)
    (hb : ∀ v, v < bv.length → bv.getD v 0 < 1000)
    (hvc : violatedConstrRow mv ≠ 0)
    (hunm : ∃ v, v < mv.length ∧
      (skcMaskRow mv bv).getD v false = false) :
    ((b2SelectRow mv bv).toNat < mv.length ∧
      (skcMaskRow mv bv).getD (b2SelectRow mv bv).toNat false = false ∧
      ∀ v, v < mv.length → (skcMaskRow mv bv).getD v false = false →
        bv.getD (b2SelectRow mv bv).toNat 0 ≤ bv.getD v 0) ∧
    (hasFreebie mv bv = true → ∀ (bern : Bool) (rank : Nat),
      b2FinalRow mv bv bern
        (seqRandomCandidate (skcMaskRow mv bv) mv.length rank) =
        b2SelectRow mv bv) := by
  obtain ⟨v0, hv0, hm0⟩ := hunm
  have hsel : b2SelectRow mv bv =
      ((argminP (maskTo bv (skcMaskRow mv bv) 1000)).1 : ℤ) := by
    rw [b2SelectRow, if_neg hvc]
  have hlen : bv.length ≤ (skcMaskRow mv bv).length := by
    rw [length_skcMaskRow, hl, Nat.min_self]
  obtain ⟨hidx, hunmi, hmin⟩ := argmin_maskTo_unmasked bv
    (skcMaskRow mv bv) 1000 hlen v0 (by rw [← hl]; exact hv0) hm0
    (hb v0 (by rw [← hl]; exact hv0))
  constructor
  · refine ⟨?_, ?_, ?_⟩
    · rw [hsel]
      have hidx' : (argminP (maskTo bv (skcMaskRow mv bv) 1000)).1 <
          mv.length := by rw [hl]; exact hidx
      simpa using hidx'
    · rw [hsel]; simpa using hunmi
    · intro v hv hmv
      rw [hsel]
      simpa using hmin v (by rw [← hl]; exact hv) hmv
  · intro h3 bern rank
    rw [b2FinalRow]
    simp [h3]

/-- Witness for C8 at a concrete row with a freebie. -/
theorem C8_break_minimizing_witness :
    b2FinalRow ([1, 1] : List ℤ) [5, 0] true
      (seqRandomCandidate (skcMaskRow ([1, 1] : List ℤ) [5, 0]) 2 0) =
      b2SelectRow ([1, 1] : List ℤ) [5, 0] :=
  ((C8_break_minimizing ℤ [1, 1] [5, 0] rfl (by decide) (by decide)
    ⟨1, by decide, by decide⟩).2 (by decide)) true 0

end CountryCrab
